import Mathlib

/-!
Verification of the police-shootings analysis script (`app.py`).

The script loads a CSV of fatal police-shooting incidents into a pandas
DataFrame, derives calendar fields, and computes grouped counts,
percentages and ratios which it prints and charts.  We shallowly embed
the data model and every computation the claims touch:

* a DataFrame row is a `Row`; the loaded frame is a `Table` (row list
  plus the derived columns `month`, `day_of_week`, `region` that some
  analysis methods add);
* `pandas.Series.value_counts` is `value_counts` (distinct values with
  their multiplicities, sorted by count descending; missing values are
  dropped first, as pandas does);
* `groupby(col).size()` is `groupbySize` (group keys sorted ascending,
  as pandas does, each with its count);
* label assignment `series[label] = v` / `dict[key] = v` is `assocSet`
  (overwrite if the label exists, append otherwise);
* fractional arithmetic is carried out in `ℚ`;
* printing is modelled by returning structured `Msg` values, chart
  rendering by returning the exact data handed to matplotlib, and a
  raised exception by an `Except`/`Option` error result.
-/

namespace PoliceShootings

/-- A parsed date as the script consumes it: `pandas.to_datetime`
succeeded, and the script reads `dt.year`, `dt.month` and
`dt.day_name()` from it (lines 28, 86, 97 of `app.py`). -/
structure Date where
  y : Int
  m : Nat
  dayName : String
deriving DecidableEq

/-- One record of the shootings CSV with the columns the script uses
(`date`, `age`, `race`, `gender`, `armed`, `state`, `city`); any of the
non-date columns may hold a missing value (pandas `NaN`). -/
structure Row where
  date : Date
  age : Option ℚ
  race : Option String
  gender : Option String
  armed : Option String
  state : Option String
  city : Option String
deriving DecidableEq

/-- The loaded DataFrame: the rows, plus the derived columns that
`analyze_temporal_trends` (lines 86 and 97) and
`analyze_geographic_patterns` (line 255) assign; `none` while the
column has not been assigned yet. -/
structure Table where
  rows : List Row
  monthCol : Option (List Nat)
  dayCol : Option (List String)
  regionCol : Option (List (Option String))
deriving DecidableEq

/-- A freshly loaded frame, before any derived column is assigned. -/
def Table.mk0 (rows : List Row) : Table :=
  ⟨rows, none, none, none⟩

/-- The `year` column derived at load time (line 28). -/
def yearsOf (t : Table) : List Int :=
  t.rows.map fun r => r.date.y

/-- The month values `dt.month` of the date column (line 86). -/
def monthsOf (t : Table) : List Nat :=
  t.rows.map fun r => r.date.m

/-- The weekday names `dt.day_name()` of the date column (line 97). -/
def daysOf (t : Table) : List String :=
  t.rows.map fun r => r.date.dayName

/-- `Series.value_counts()`: the distinct values of a column with their
multiplicities, sorted by count descending (ties keep a fixed stable
order, as the pandas implementation does). -/
def value_counts {α : Type} [DecidableEq α] (l : List α) : List (α × Nat) :=
  List.insertionSort (fun a b : α × Nat => b.2 ≤ a.2)
    (l.dedup.map fun k => (k, l.count k))

/-- `value_counts` on a column that may hold missing values: pandas
drops `NaN` entries before counting. -/
def value_countsOpt {α : Type} [DecidableEq α] (l : List (Option α)) : List (α × Nat) :=
  value_counts (l.filterMap id)

/-- `df.groupby(col).size()`: group keys in ascending order (pandas
sorts group keys), each with the size of its group. -/
def groupbySize {α : Type} [DecidableEq α] [LinearOrder α] (l : List α) : List (α × Nat) :=
  (List.insertionSort (fun a b : α => a ≤ b) l.dedup).map fun k => (k, l.count k)

/-- Label assignment on a pandas `Series` or a Python `dict`
(`s[k] = v`): overwrite the entry if the key is present, append it
otherwise. -/
def assocSet {α β : Type} [DecidableEq α] (l : List (α × β)) (k : α) (v : β) :
    List (α × β) :=
  if k ∈ l.map Prod.fst then l.map fun p => if p.1 = k then (k, v) else p
  else l ++ [(k, v)]

/-- The sum of the counts of a counts series (`series.sum()`). -/
def sumCounts {α : Type} (l : List (α × Nat)) : Nat :=
  (l.map Prod.snd).sum

/-- Structured stand-ins for the lines the script prints. -/
inductive Msg where
  | loadingData : Msg
  | loadedRecords : Nat → Msg
  | censusNote : Msg
  | errorLoading : String → Msg
  | pleaseLoadFirst : Msg
  | basicReport : List (Int × Nat) → List (String × ℚ) → List (String × Nat) → Msg
  | summaryReport : Nat → ℚ → Msg
deriving DecidableEq

/-- Outcome of the `try` block of `load_data` (lines 21-36): either
`pd.read_csv` raises (missing file, ...), or the date parsing and year
derivation raise, or everything succeeds and yields the parsed rows. -/
inductive LoadOutcome where
  | readFail : String → LoadOutcome
  | parseFail : String → LoadOutcome
  | success : List Row → LoadOutcome
deriving DecidableEq

/-- `load_data` (lines 20-40): any exception of the `try` block is
caught by the `except` handler, which prints the error and returns
`False`; on success the loaded record count is reported and the method
returns `True`. -/
def load_data : LoadOutcome → Bool × List Msg
  | .readFail e => (false, [.loadingData, .errorLoading e])
  | .parseFail e => (false, [.loadingData, .errorLoading e])
  | .success rows => (true, [.loadingData, .loadedRecords rows.length, .censusNote])

/-- The table `load_data` leaves in `self.shootings_data` when it
returns `True` (fully parsed rows, no derived analysis columns yet). -/
def loadedTable : LoadOutcome → Option Table
  | .success rows => some (Table.mk0 rows)
  | _ => none

/-- The per-race percentages printed by the race/ethnicity breakdown of
`explore_basic_statistics` (lines 58-61): `value_counts` of the `race`
column (missing values dropped) divided by the full row count, times
100.  The script also rounds each to two decimals for display; the
rounding is not modelled. -/
def race_percentages (t : Table) : List (String × ℚ) :=
  (value_countsOpt (t.rows.map Row.race)).map fun rc =>
    (rc.1, (rc.2 : ℚ) / (t.rows.length : ℚ) * 100)

/-- The sum of the printed race percentages. -/
def sum_race_percentages (t : Table) : ℚ :=
  ((race_percentages t).map Prod.snd).sum

/-- `explore_basic_statistics` (lines 42-71): with no data loaded it
prints a reminder and returns; otherwise it prints the yearly group-by
counts, the race breakdown and the top-10 states, touching nothing. -/
def explore_basic_statistics (d : Option Table) : Option Table × List Msg :=
  match d with
  | none => (none, [.pleaseLoadFirst])
  | some t =>
      (some t,
        [.basicReport (groupbySize (yearsOf t)) (race_percentages t)
          ((value_countsOpt (t.rows.map Row.state)).take 10)])

/-- The weekday labels used to reindex the day-of-week counts
(line 98). -/
def day_order : List String :=
  ["Monday", "Tuesday", "Wednesday", "Thursday", "Friday", "Saturday", "Sunday"]

/-- The ways `analyze_temporal_trends` can terminate without producing
its figure: the `None` guard of line 74, the matplotlib shape-mismatch
error of the monthly bar chart (line 90, twelve x positions against the
per-month counts), or the pandas `KeyError` of line 99 (indexing the
day-of-week counts with the full `day_order` list). -/
inductive TemporalErr where
  | noData : TemporalErr
  | monthBarMismatch : TemporalErr
  | missingWeekday : TemporalErr
deriving DecidableEq

/-- Indexing a counts series with a list of labels
(`value_counts()[labels]`): pandas returns the value of every label in
order and raises a `KeyError` when any label is absent from the index. -/
def selectSeries (vc : List (String × Nat)) : List String → Option (List Nat)
  | [] => some []
  | d :: ds =>
      match List.lookup d vc, selectSeries vc ds with
      | some c, some cs => some (c :: cs)
      | _, _ => none

/-- The data handed to the four panels of the temporal figure. -/
structure TemporalCharts where
  yearly : List (Int × Nat)
  monthly : List (Nat × Nat)
  dayCounts : List Nat
  ageHist : List ℚ
deriving DecidableEq

/-- `analyze_temporal_trends` (lines 73-120).  It returns the final
`self.shootings_data` (the method assigns the derived `month` column at
line 86 and the `day_of_week` column at line 97) together with either
the chart data or the error that aborted the method.  Failure points in
source order: the monthly bar of line 90 raises unless the number of
distinct months is exactly 12, and the reindexing of line 99 raises
unless every name of `day_order` occurs. -/
def analyze_temporal_trends (d : Option Table) :
    Option Table × Except TemporalErr TemporalCharts :=
  match d with
  | none => (none, .error .noData)
  | some t =>
      let yearly := groupbySize (yearsOf t)
      let t1 : Table := { t with monthCol := some (monthsOf t) }
      let monthly := groupbySize (monthsOf t)
      if monthly.length = 12 then
        let t2 : Table := { t1 with dayCol := some (daysOf t) }
        match selectSeries (value_counts (daysOf t)) day_order with
        | some dc =>
            (some t2, .ok ⟨yearly, monthly, dc, t.rows.filterMap Row.age⟩)
        | none => (some t2, .error .missingWeekday)
      else (some t1, .error .monthBarMismatch)

/-- The static national population percentages per race code
(lines 135-142 of `app.py`). -/
def us_population_race : List (String × ℚ) :=
  [("W", 72.4), ("B", 12.6), ("H", 16.3), ("A", 4.8), ("N", 0.9), ("O", 2.9)]

/-- One row of the `comparison_df` DataFrame built at lines 145-158. -/
structure CompRow where
  race : String
  shooting_rate : ℚ
  population_rate : ℚ
  ratio : ℚ
deriving DecidableEq

/-- The race shooting-rate versus population-rate table of
`analyze_demographic_patterns` (lines 144-158): iterate over the index
of `race_counts` (the distinct non-missing race codes), keep exactly
the codes present in `us_population_race`, and record the shooting
percentage (count over the sum of the counts, times 100), the
population percentage and their ratio. -/
def comparison_table (t : Table) : List CompRow :=
  let race_counts := value_countsOpt (t.rows.map Row.race)
  race_counts.filterMap fun rc =>
    (List.lookup rc.1 us_population_race).map fun pop =>
      { race := rc.1
        shooting_rate := (rc.2 : ℚ) / (sumCounts race_counts : ℚ) * 100
        population_rate := pop
        ratio := (rc.2 : ℚ) / (sumCounts race_counts : ℚ) * 100 / pop }

/-- The armed-status simplification of lines 188-194: missing values
become `unknown` (`fillna`), then the fixed `replace` renaming is
applied. -/
def simplifyArmed : Option String → String
  | none => "unknown"
  | some s =>
      if s = "gun" then "firearm"
      else if s = "knife" then "knife/blade"
      else if s = "unarmed" then "unarmed"
      else if s = "unknown weapon" then "unknown"
      else s

/-- The series behind the armed-status bar chart (lines 196-200): the
eight most frequent simplified categories, and, when the remaining
categories have a positive total, the label assignment
`top_categories['other'] = other_count` (which appends a new entry, or
overwrites an existing `other` entry). -/
def armed_chart (t : Table) : List (String × Nat) :=
  let armed_counts := value_counts (t.rows.map fun r => simplifyArmed r.armed)
  let top_categories := armed_counts.take 8
  let other_count := sumCounts (armed_counts.drop 8)
  if other_count > 0 then assocSet top_categories "other" other_count
  else top_categories

/-- Modelled from the claim wording, for comparison with `armed_chart`:
the eight most frequent categories followed by an appended `other`
bucket holding the sum of the remaining counts, omitted when that sum
is zero. -/
def armed_chart_claimed (t : Table) : List (String × Nat) :=
  let armed_counts := value_counts (t.rows.map fun r => simplifyArmed r.armed)
  let other_count := sumCounts (armed_counts.drop 8)
  armed_counts.take 8 ++ (if other_count > 0 then [("other", other_count)] else [])

/-- The data handed to the four panels of the demographic figure. -/
structure DemoCharts where
  racePie : List (String × Nat)
  comparison : List CompRow
  genderCounts : List (String × Nat)
  armedBars : List (String × Nat)
deriving DecidableEq

/-- `analyze_demographic_patterns` (lines 122-209): with no data it
returns immediately; otherwise it renders the four demographic panels
and never touches `self.shootings_data`. -/
def analyze_demographic_patterns (d : Option Table) :
    Option Table × Option DemoCharts :=
  match d with
  | none => (none, none)
  | some t =>
      (some t,
        some
          { racePie := value_countsOpt (t.rows.map Row.race)
            comparison := comparison_table t
            genderCounts := value_countsOpt (t.rows.map Row.gender)
            armedBars := armed_chart t })

/-- The static region table of lines 240-247: region name to the list
of state codes it covers. -/
def region_mapping : List (String × List String) :=
  [("Northeast", ["CT", "ME", "MA", "NH", "NJ", "NY", "PA", "RI", "VT"]),
   ("Southeast", ["AL", "AR", "FL", "GA", "KY", "LA", "MS", "NC", "SC", "TN", "VA", "WV"]),
   ("Midwest", ["IL", "IN", "IA", "KS", "MI", "MN", "MO", "NE", "ND", "OH", "SD", "WI"]),
   ("Southwest", ["AZ", "NM", "OK", "TX"]),
   ("West", ["AK", "CA", "CO", "HI", "ID", "MT", "NV", "OR", "UT", "WA", "WY"]),
   ("Other", ["DC", "DE", "MD"])]

/-- Every state code that appears in the region table. -/
def all_region_states : List String :=
  region_mapping.flatMap Prod.snd

/-- The state-to-region dictionary built by the nested loops of
lines 250-253 (`state_to_region[state] = region`). -/
def state_to_region : List (String × String) :=
  region_mapping.foldl (fun acc p => p.2.foldl (fun a s => assocSet a s p.1) acc) []

/-- The derived region of one incident (`self.shootings_data['state']
.map(state_to_region)`, line 255): `none` when the state is missing or
absent from the dictionary, exactly as `Series.map` yields `NaN`. -/
def regionOf (r : Row) : Option String :=
  r.state.bind fun s => List.lookup s state_to_region

/-- The data handed to the panels of the geographic figure. -/
structure GeoCharts where
  stateBars : List (String × Nat)
  cityBars : List (String × Nat)
  regionPie : List (String × Nat)
deriving DecidableEq

/-- `analyze_geographic_patterns` (lines 211-263): with no data it
returns immediately; otherwise it renders the top-15 state and city
charts, assigns the derived `region` column (line 255) and renders the
region pie from its `value_counts` (missing regions dropped). -/
def analyze_geographic_patterns (d : Option Table) :
    Option Table × Option GeoCharts :=
  match d with
  | none => (none, none)
  | some t =>
      let regions := t.rows.map regionOf
      let t1 : Table := { t with regionCol := some regions }
      (some t1,
        some
          { stateBars := (value_countsOpt (t.rows.map Row.state)).take 15
            cityBars := (value_countsOpt (t.rows.map Row.city)).take 15
            regionPie := value_countsOpt regions })

/-- The overall trend percentage printed by the summary (lines
306-307): `yearly_trend.iloc[0]` and `yearly_trend.iloc[-1]` are the
first and last entries of the year group-by counts (whose keys pandas
sorts ascending), and the change is `(last - first) / first * 100`.
On an empty frame `iloc` would raise; the `0` fallback is never used by
the claims, which assume a non-empty dataset. -/
def trend_change (t : Table) : ℚ :=
  let g := groupbySize (yearsOf t)
  match g.head?, g.getLast? with
  | some p, some q => ((q.2 : ℚ) - (p.2 : ℚ)) / (p.2 : ℚ) * 100
  | _, _ => 0

/-- `generate_summary_report` (lines 265-320): with no data it prints a
reminder and returns; otherwise it prints the summary statistics,
among them the total record count and the trend change, touching
nothing. -/
def generate_summary_report (d : Option Table) : Option Table × List Msg :=
  match d with
  | none => (none, [.pleaseLoadFirst])
  | some t => (some t, [.summaryReport t.rows.length (trend_change t)])

/-- The phases of `main` (lines 323-356). -/
inductive Step where
  | load : Step
  | basicStats : Step
  | temporal : Step
  | demographic : Step
  | geographic : Step
  | summary : Step
deriving DecidableEq

/-- The phases `main` executes: when `load_data` returns `False` it
prints a failure note and returns before any analysis (lines 329-331);
otherwise the four analyses and the summary run in order. -/
def main_steps (o : LoadOutcome) : List Step :=
  if (load_data o).1 then
    [.load, .basicStats, .temporal, .demographic, .geographic, .summary]
  else [.load]

/-- Helper for building concrete sample rows. -/
def mkRow (y : Int) (m : Nat) (dy : String) (race armed state : Option String) : Row :=
  { date := ⟨y, m, dy⟩, age := none, race := race, gender := none,
    armed := armed, state := state, city := none }

/-- Sample frame with two rows, one of them with a missing race value. -/
def sampleMissingRace : Table :=
  Table.mk0
    [mkRow 2015 1 "Monday" (some "W") none none,
     mkRow 2015 1 "Monday" none none none]

/-- Sample frame whose simplified armed categories are eight values of
count two (among them the literal category `other`) and one value of
count one, so that the top-8 cut keeps `other` while a positive
remainder exists. -/
def sampleArmedOther : Table :=
  Table.mk0
    (([some "other", some "other", some "a", some "a", some "b", some "b",
       some "c", some "c", some "d", some "d", some "e", some "e",
       some "f", some "f", some "g", some "g", some "h"] : List (Option String)).map
      fun a => mkRow 2015 1 "Monday" none a none)

/-- Sample frame with a single armed value, far away from the `other`
collapse. -/
def sampleOneGun : Table :=
  Table.mk0 [mkRow 2015 1 "Monday" none (some "gun") none]

/-- Sample frame with one white race value. -/
def sampleOneRace : Table :=
  Table.mk0 [mkRow 2015 1 "Monday" (some "W") none none]

/-- Sample frame spanning the years 2015 and 2016 with one and two
records respectively. -/
def sampleYears : Table :=
  Table.mk0
    [mkRow 2016 1 "Monday" none none none,
     mkRow 2015 1 "Monday" none none none,
     mkRow 2016 1 "Monday" none none none]

/-- Sample frame covering all twelve months and all seven weekday
names. -/
def sampleFullCalendar : Table :=
  Table.mk0
    [mkRow 2015 1 "Monday" none none none,
     mkRow 2015 2 "Tuesday" none none none,
     mkRow 2015 3 "Wednesday" none none none,
     mkRow 2015 4 "Thursday" none none none,
     mkRow 2015 5 "Friday" none none none,
     mkRow 2015 6 "Saturday" none none none,
     mkRow 2015 7 "Sunday" none none none,
     mkRow 2015 8 "Monday" none none none,
     mkRow 2015 9 "Tuesday" none none none,
     mkRow 2015 10 "Wednesday" none none none,
     mkRow 2015 11 "Thursday" none none none,
     mkRow 2015 12 "Friday" none none none]

/-- Sample frame with one Texas record. -/
def sampleOneState : Table :=
  Table.mk0 [mkRow 2015 1 "Monday" none none (some "TX")]

/-- The single comparison row the demographic analysis produces on
`sampleOneRace`. -/
def sampleCompRow : CompRow :=
  { race := "W"
    shooting_rate := ((1 : Nat) : ℚ) / ((1 : Nat) : ℚ) * 100
    population_rate := 72.4
    ratio := ((1 : Nat) : ℚ) / ((1 : Nat) : ℚ) * 100 / 72.4 }

/-! ### Library lemmas about the embedded pandas operations -/

theorem sum_dedup_count {α : Type} [DecidableEq α] (l : List α) :
    (l.dedup.map fun k => l.count k).sum = l.length := by
  have hfin : l.dedup.toFinset = l.toFinset := List.toFinset.ext (by simp)
  rw [← List.sum_toFinset _ (List.nodup_dedup l), hfin]
  exact List.sum_toFinset_count_eq_length l

theorem sumCounts_value_counts {α : Type} [DecidableEq α] (l : List α) :
    sumCounts (value_counts l) = l.length := by
  unfold sumCounts value_counts
  have hp : List.Perm
      (List.insertionSort (fun a b : α × Nat => b.2 ≤ a.2)
        (l.dedup.map fun k => (k, l.count k)))
      (l.dedup.map fun k => (k, l.count k)) :=
    List.perm_insertionSort _ _
  rw [(hp.map Prod.snd).sum_eq, List.map_map]
  exact sum_dedup_count l

theorem sumCounts_value_countsOpt {α : Type} [DecidableEq α] (l : List (Option α)) :
    sumCounts (value_countsOpt l) = (l.filterMap id).length :=
  sumCounts_value_counts _

theorem mem_value_counts {α : Type} [DecidableEq α] {l : List α} {p : α × Nat} :
    p ∈ value_counts l ↔ p.1 ∈ l ∧ p.2 = l.count p.1 := by
  unfold value_counts
  rw [List.mem_insertionSort, List.mem_map]
  constructor
  · rintro ⟨k, hk, rfl⟩
    exact ⟨List.mem_dedup.mp hk, rfl⟩
  · obtain ⟨a, c⟩ := p
    rintro ⟨h1, h2⟩
    exact ⟨a, List.mem_dedup.mpr h1, by simp_all⟩

theorem fst_mem_value_counts {α : Type} [DecidableEq α] {l : List α} {k : α} :
    k ∈ (value_counts l).map Prod.fst ↔ k ∈ l := by
  rw [List.mem_map]
  constructor
  · rintro ⟨p, hp, rfl⟩
    exact (mem_value_counts.mp hp).1
  · intro hk
    exact ⟨(k, l.count k), mem_value_counts.mpr ⟨hk, rfl⟩, rfl⟩

theorem nodup_keys_value_counts {α : Type} [DecidableEq α] (l : List α) :
    ((value_counts l).map Prod.fst).Nodup := by
  unfold value_counts
  have hp := (List.perm_insertionSort (fun a b : α × Nat => b.2 ≤ a.2)
    (l.dedup.map fun k => (k, l.count k))).map Prod.fst
  rw [hp.nodup_iff, List.map_map]
  have hid : (Prod.fst ∘ fun k : α => ((k, l.count k) : α × Nat)) = id := rfl
  rw [hid, List.map_id]
  exact l.nodup_dedup

theorem lookup_eq_some_of_nodup_keys {α β : Type} [DecidableEq α] :
    ∀ {l : List (α × β)}, (l.map Prod.fst).Nodup →
      ∀ {k : α} {b : β}, (k, b) ∈ l → List.lookup k l = some b := by
  intro l
  induction l with
  | nil => intro _ k b hmem; cases hmem
  | cons p tl ih =>
      obtain ⟨a, c⟩ := p
      intro hnd k b hmem
      have hnd' := hnd
      rw [List.map_cons, List.nodup_cons] at hnd'
      rw [List.lookup_cons]
      by_cases hk : k = a
      · subst hk
        simp only [beq_self_eq_true]
        rcases List.mem_cons.mp hmem with he | htl
        · cases he; rfl
        · exact absurd (List.mem_map.mpr ⟨(k, b), htl, rfl⟩) hnd'.1
      · have hbeq : (k == a) = false := beq_eq_false_iff_ne.mpr hk
        rw [hbeq]
        rcases List.mem_cons.mp hmem with he | htl
        · cases he; exact absurd rfl hk
        · exact ih hnd'.2 htl

theorem lookup_value_counts {α : Type} [DecidableEq α] {l : List α} {k : α}
    (h : k ∈ l) : List.lookup k (value_counts l) = some (l.count k) :=
  lookup_eq_some_of_nodup_keys (nodup_keys_value_counts l)
    (mem_value_counts.mpr ⟨h, rfl⟩)

theorem lookup_value_counts_isSome {α : Type} [DecidableEq α] {l : List α} {k : α} :
    (List.lookup k (value_counts l)).isSome ↔ k ∈ l := by
  rw [List.lookup_isSome_iff]
  constructor
  · rintro ⟨p, hp, hbeq⟩
    have := (mem_value_counts.mp hp).1
    rwa [beq_iff_eq.mp hbeq]
  · intro hk
    exact ⟨(k, l.count k), mem_value_counts.mpr ⟨hk, rfl⟩, beq_iff_eq.mpr rfl⟩

theorem length_filterMap_eq {α β : Type} (f : α → Option β) (l : List α) :
    (l.filterMap f).length = (l.filter fun a => (f a).isSome).length := by
  induction l with
  | nil => rfl
  | cons x xs ih =>
      rw [List.filterMap_cons, List.filter_cons]
      cases hfx : f x <;> simp [hfx, ih]

theorem head_le_of_sorted {α : Type} [LinearOrder α] {l : List α} (h : l ≠ [])
    (hs : l.Sorted (· ≤ ·)) : ∀ x ∈ l, l.head h ≤ x := by
  match l with
  | a :: tl =>
      intro x hx
      rcases List.mem_cons.mp hx with rfl | hx2
      · exact le_refl _
      · exact List.rel_of_sorted_cons hs x hx2

theorem le_getLast_of_sorted {α : Type} [LinearOrder α] :
    ∀ {l : List α} (h : l ≠ []), l.Sorted (· ≤ ·) → ∀ x ∈ l, x ≤ l.getLast h := by
  intro l
  induction l with
  | nil => intro h; cases h rfl
  | cons a tl ih =>
      intro h hs x hx
      match tl, ih with
      | [], _ =>
          rcases List.mem_cons.mp hx with rfl | hx2
          · exact le_refl _
          · cases hx2
      | b :: tl2, ih =>
          rw [List.getLast_cons (List.cons_ne_nil b tl2)]
          rcases List.mem_cons.mp hx with rfl | hx2
          · exact le_trans
              (List.rel_of_sorted_cons hs _ (List.getLast_mem (List.cons_ne_nil b tl2)))
              (le_refl _)
          · exact ih (List.cons_ne_nil b tl2) hs.of_cons x hx2

theorem dedup_length_eq_twelve {l : List Nat}
    (hm : ∀ x ∈ l, 1 ≤ x ∧ x ≤ 12) :
    l.dedup.length = 12 ↔ ∀ mo : Nat, 1 ≤ mo → mo ≤ 12 → mo ∈ l := by
  have hsub : l.toFinset ⊆ Finset.Icc 1 12 := by
    intro x hx
    rw [List.mem_toFinset] at hx
    exact Finset.mem_Icc.mpr (hm x hx)
  have hcard : (Finset.Icc 1 12).card = 12 := by decide
  have hlen : l.toFinset.card = l.dedup.length := (List.card_toFinset l)
  constructor
  · intro h12 mo h1 h2
    have hset : l.toFinset = Finset.Icc 1 12 :=
      Finset.eq_of_subset_of_card_le hsub (by rw [hcard, hlen, h12])
    have : mo ∈ l.toFinset := hset ▸ Finset.mem_Icc.mpr ⟨h1, h2⟩
    exact List.mem_toFinset.mp this
  · intro hall
    have hsup : Finset.Icc 1 12 ⊆ l.toFinset := by
      intro x hx
      rw [List.mem_toFinset]
      obtain ⟨h1, h2⟩ := Finset.mem_Icc.mp hx
      exact hall x h1 h2
    rw [← hlen, subset_antisymm hsub hsup, hcard]

theorem selectSeries_eq_some_iff {vc : List (String × Nat)} :
    ∀ {labels : List String},
      (∃ cs, selectSeries vc labels = some cs) ↔
        ∀ dy ∈ labels, (List.lookup dy vc).isSome := by
  intro labels
  induction labels with
  | nil => simp [selectSeries]
  | cons d ds ih =>
      rw [selectSeries]
      constructor
      · rintro ⟨cs, hcs⟩
        cases hd : List.lookup d vc with
        | none => rw [hd] at hcs; cases hcs
        | some c =>
            rw [hd] at hcs
            cases hds : selectSeries vc ds with
            | none => rw [hds] at hcs; cases hcs
            | some cs2 =>
                intro dy hdy
                rcases List.mem_cons.mp hdy with rfl | h2
                · rw [hd]; rfl
                · exact ih.mp ⟨cs2, hds⟩ dy h2
      · intro hall
        have hd : (List.lookup d vc).isSome := hall d (List.mem_cons_self d ds)
        obtain ⟨c, hc⟩ := Option.isSome_iff_exists.mp hd
        obtain ⟨cs, hcs⟩ := ih.mpr fun dy hdy => hall dy (List.mem_cons_of_mem d hdy)
        exact ⟨c :: cs, by rw [hc, hcs]⟩

theorem selectSeries_eq_map {vc : List (String × Nat)} {g : String → Nat} :
    ∀ {labels : List String}, (∀ dy ∈ labels, List.lookup dy vc = some (g dy)) →
      selectSeries vc labels = some (labels.map g) := by
  intro labels
  induction labels with
  | nil => intro _; rfl
  | cons d ds ih =>
      intro hall
      rw [selectSeries, hall d (List.mem_cons_self d ds),
        ih fun dy hdy => hall dy (List.mem_cons_of_mem d hdy), List.map_cons]

theorem lookup_isSome_iff_mem_keys {α β : Type} [DecidableEq α] {l : List (α × β)}
    {k : α} : (List.lookup k l).isSome ↔ k ∈ l.map Prod.fst := by
  rw [List.lookup_isSome_iff, List.mem_map]
  constructor
  · rintro ⟨p, hp, hbeq⟩
    exact ⟨p, hp, (beq_iff_eq.mp hbeq).symm⟩
  · rintro ⟨p, hp, he⟩
    exact ⟨p, hp, beq_iff_eq.mpr he.symm⟩

theorem sum_map_div_mul {α : Type} (l : List (α × Nat)) (N : ℚ) :
    (l.map fun rc => (rc.2 : ℚ) / N * 100).sum = (sumCounts l : ℚ) / N * 100 := by
  induction l with
  | nil => simp [sumCounts]
  | cons p tl ih =>
      simp only [sumCounts, List.map_cons, List.sum_cons] at ih ⊢
      rw [ih]
      push_cast
      ring

theorem temporal_eq (t : Table) :
    analyze_temporal_trends (some t) =
      if (groupbySize (monthsOf t)).length = 12 then
        match selectSeries (value_counts (daysOf t)) day_order with
        | some dc =>
            (some { t with monthCol := some (monthsOf t), dayCol := some (daysOf t) },
              .ok ⟨groupbySize (yearsOf t), groupbySize (monthsOf t), dc,
                t.rows.filterMap Row.age⟩)
        | none =>
            (some { t with monthCol := some (monthsOf t), dayCol := some (daysOf t) },
              .error .missingWeekday)
      else
        (some { t with monthCol := some (monthsOf t) }, .error .monthBarMismatch) := by
  rfl

/-! ### The claims -/

/-- C3: for every loaded dataset the yearly group-by counts computed in
`explore_basic_statistics` (and reused by `analyze_temporal_trends`)
sum to the total number of rows of the dataset. -/
theorem yearly_counts_sum_to_total (t : Table) :
    sumCounts (groupbySize (yearsOf t)) = t.rows.length := by
  unfold sumCounts groupbySize
  rw [List.map_map]
  have hp := (List.perm_insertionSort (fun a b : Int => a ≤ b) (yearsOf t).dedup).map
    (Prod.snd ∘ fun k => (k, (yearsOf t).count k))
  rw [hp.sum_eq]
  have hc : (List.map (Prod.snd ∘ fun k : Int => ((k, (yearsOf t).count k) : Int × Nat))
      (yearsOf t).dedup) = (yearsOf t).dedup.map fun k => (yearsOf t).count k := rfl
  rw [hc, sum_dedup_count, yearsOf, List.length_map]

/-- C8: with no data loaded (`shootings_data is None`), every analysis
or report method returns at once, leaves the state untouched and
computes nothing; `explore_basic_statistics` and
`generate_summary_report` additionally print the load-data-first
reminder. -/
theorem analyses_no_data_noop :
    explore_basic_statistics none = (none, [Msg.pleaseLoadFirst]) ∧
    analyze_temporal_trends none = (none, Except.error TemporalErr.noData) ∧
    analyze_demographic_patterns none = (none, none) ∧
    analyze_geographic_patterns none = (none, none) ∧
    generate_summary_report none = (none, [Msg.pleaseLoadFirst]) :=
  ⟨rfl, rfl, rfl, rfl, rfl⟩

/-- C10: the five analysis/report methods never change the loaded rows
(hence neither any pre-existing column nor the row count);
`explore_basic_statistics`, `generate_summary_report` and
`analyze_demographic_patterns` leave the table completely unchanged,
while `analyze_temporal_trends` only assigns the derived `month` and
`day_of_week` columns and `analyze_geographic_patterns` only assigns
the derived `region` column. -/
theorem analyses_preserve_table (t : Table) :
    (explore_basic_statistics (some t)).1 = some t ∧
    (generate_summary_report (some t)).1 = some t ∧
    (analyze_demographic_patterns (some t)).1 = some t ∧
    (analyze_temporal_trends (some t)).1.map Table.rows = some t.rows ∧
    (analyze_temporal_trends (some t)).1.map Table.regionCol = some t.regionCol ∧
    (analyze_temporal_trends (some t)).1.map Table.monthCol
      = some (some (monthsOf t)) ∧
    ((analyze_temporal_trends (some t)).1.map Table.dayCol
        = some (some (daysOf t)) ∨
      (analyze_temporal_trends (some t)).1.map Table.dayCol = some t.dayCol) ∧
    (analyze_geographic_patterns (some t)).1.map Table.rows = some t.rows ∧
    (analyze_geographic_patterns (some t)).1.map Table.monthCol = some t.monthCol ∧
    (analyze_geographic_patterns (some t)).1.map Table.dayCol = some t.dayCol ∧
    (analyze_geographic_patterns (some t)).1.map Table.regionCol
      = some (some (t.rows.map regionOf)) := by
  refine ⟨rfl, rfl, rfl, ?_, ?_, ?_, ?_, rfl, rfl, rfl, rfl⟩ <;>
    rw [temporal_eq] <;> split
  case _ => split <;> rfl
  case _ => rfl
  case _ => split <;> rfl
  case _ => rfl
  case _ => split <;> rfl
  case _ => rfl
  case _ => split <;> exact Or.inl rfl
  case _ => exact Or.inr rfl

/-- C7: every exception raised while loading is caught by `load_data`,
which prints the error and returns `False`; `load_data` returns `True`
exactly when reading and date/year derivation succeed; and after a
`False` return `main` stops without running any analysis phase. -/
theorem load_failure_halts (o : LoadOutcome) :
    ((load_data o).1 = true ↔ ∃ rows, o = LoadOutcome.success rows) ∧
    ((load_data o).1 = false →
      (∃ e, Msg.errorLoading e ∈ (load_data o).2) ∧ main_steps o = [Step.load]) := by
  cases o with
  | readFail e =>
      exact ⟨by simp [load_data], fun _ => ⟨⟨e, by simp [load_data]⟩,
        by simp [main_steps, load_data]⟩⟩
  | parseFail e =>
      exact ⟨by simp [load_data], fun _ => ⟨⟨e, by simp [load_data]⟩,
        by simp [main_steps, load_data]⟩⟩
  | success rows =>
      exact ⟨by simp [load_data], fun hf => by simp [load_data] at hf⟩

set_option maxRecDepth 8000 in
/-- C4: the region table lists every state code in exactly one region;
an incident obtains a derived region exactly when its state code is in
the table (so it obtains exactly one); and the region counts total
exactly the incidents whose state is in the table, excluding all
others. -/
theorem region_mapping_exclusive :
    all_region_states.Nodup ∧
    (∀ s ∈ all_region_states,
      (region_mapping.countP fun p => decide (s ∈ p.2)) = 1) ∧
    (∀ r : Row, (regionOf r).isSome ↔ ∃ s, r.state = some s ∧ s ∈ all_region_states) ∧
    (∀ t : Table,
      sumCounts (value_countsOpt (t.rows.map regionOf)) =
        (t.rows.filter fun r => (regionOf r).isSome).length) := by
  have hkeys : state_to_region.map Prod.fst = all_region_states := by decide
  refine ⟨by decide, by decide, ?_, ?_⟩
  · intro r
    cases hr : r.state with
    | none => simp [regionOf, hr]
    | some s =>
        have hrg : regionOf r = List.lookup s state_to_region := by
          unfold regionOf; rw [hr]; rfl
        rw [hrg, lookup_isSome_iff_mem_keys, hkeys]
        constructor
        · intro hs
          exact ⟨s, rfl, hs⟩
        · rintro ⟨s2, hs2, hm⟩
          rw [Option.some_inj.mp hs2]
          exact hm
  · intro t
    rw [sumCounts_value_countsOpt, List.filterMap_map]
    exact length_filterMap_eq regionOf t.rows

/-- C2 fails as stated: on `sampleMissingRace` (two rows, one with a
missing race value) the race percentages printed by
`explore_basic_statistics` sum to 50, not approximately 100, because
`value_counts` drops the missing value while the divisor stays the full
row count. -/
theorem race_percentages_sum_counterexample :
    sum_race_percentages sampleMissingRace = 50 ∧
    sum_race_percentages sampleMissingRace ≠ 100 ∧
    sampleMissingRace.rows.length = 2 ∧
    mkRow 2015 1 "Monday" none none none ∈ sampleMissingRace.rows ∧
    (mkRow 2015 1 "Monday" none none none).race = none := by
  have hvc : value_countsOpt (sampleMissingRace.rows.map Row.race) = [("W", 1)] := by
    decide
  have h50 : sum_race_percentages sampleMissingRace = 50 := by
    unfold sum_race_percentages race_percentages
    rw [hvc]
    norm_num [sampleMissingRace, Table.mk0]
  exact ⟨h50, by rw [h50]; norm_num, by decide, by decide, rfl⟩

/-- C2 amended: for every dataset with at least one row, the race
percentages printed by `explore_basic_statistics` sum to the fraction
of rows with a non-missing race value, times 100; in particular the sum
is exactly 100 when no row has a missing race value (and falls short of
100 by the share of missing values otherwise). -/
theorem race_percentages_sum_eq (t : Table) (h : t.rows ≠ []) :
    sum_race_percentages t =
      ((t.rows.filterMap Row.race).length : ℚ) / (t.rows.length : ℚ) * 100 ∧
    ((∀ r ∈ t.rows, (Row.race r).isSome) → sum_race_percentages t = 100) := by
  have h1 : sum_race_percentages t =
      ((t.rows.filterMap Row.race).length : ℚ) / (t.rows.length : ℚ) * 100 := by
    unfold sum_race_percentages race_percentages
    rw [List.map_map]
    have hc : (Prod.snd ∘ fun rc : String × Nat =>
        (rc.1, (rc.2 : ℚ) / (t.rows.length : ℚ) * 100)) =
        fun rc : String × Nat => (rc.2 : ℚ) / (t.rows.length : ℚ) * 100 := rfl
    rw [hc, sum_map_div_mul, sumCounts_value_countsOpt, List.filterMap_map]
    rfl
  refine ⟨h1, fun hall => ?_⟩
  have hlen : (t.rows.filterMap Row.race).length = t.rows.length := by
    rw [length_filterMap_eq, List.filter_eq_self.mpr fun a ha => by
      simpa using hall a ha]
  have hN : (t.rows.length : ℚ) ≠ 0 := by
    rw [Nat.cast_ne_zero]
    intro h0
    exact h (List.length_eq_zero.mp h0)
  rw [h1, hlen, div_self hN, one_mul]

/-- C6 fails as stated: on `sampleArmedOther` the literal category
`other` is among the eight most frequent armed categories, so the label
assignment `top_categories['other'] = other_count` overwrites its count
with the remainder sum (1 instead of its true count 2) instead of
appending a ninth collapsed bucket. -/
theorem armed_chart_counterexample :
    armed_chart sampleArmedOther ≠ armed_chart_claimed sampleArmedOther ∧
    ("other", 2) ∈ value_counts (sampleArmedOther.rows.map fun r => simplifyArmed r.armed) ∧
    ("other", 1) ∈ armed_chart sampleArmedOther ∧
    ("other", 2) ∉ armed_chart sampleArmedOther := by
  decide

/-- C6 amended: whenever `other` is not itself among the eight most
frequent simplified armed categories (in particular whenever it does
not occur as a category at all), the armed-status chart shows exactly
the top eight categories followed by a collapsed `other` bucket whose
count is the sum of the remaining counts, the bucket being omitted when
that sum is zero.  When `other` is among the top eight, the code
instead overwrites that category's count with the remainder sum. -/
theorem armed_chart_top8_plus_other (t : Table)
    (h : "other" ∉
      ((value_counts (t.rows.map fun r => simplifyArmed r.armed)).take 8).map Prod.fst) :
    armed_chart t = armed_chart_claimed t := by
  unfold armed_chart armed_chart_claimed
  dsimp only
  by_cases hoc :
      sumCounts ((value_counts (t.rows.map fun r => simplifyArmed r.armed)).drop 8) > 0
  · rw [if_pos hoc, if_pos hoc, assocSet, if_neg h]
  · rw [if_neg hoc, if_neg hoc, List.append_nil]

/-- C5: the race comparison table contains exactly the race codes that
occur in the data and are keys of the static population table, and each
row's ratio is the race's percentage share of the non-missing race
values divided by its population percentage. -/
theorem comparison_table_spec (t : Table) :
    (∀ race : String,
        race ∈ (comparison_table t).map CompRow.race ↔
          (some race ∈ t.rows.map Row.race ∧
            race ∈ us_population_race.map Prod.fst)) ∧
    (∀ c : CompRow, c ∈ comparison_table t → ∃ pop,
        List.lookup c.race us_population_race = some pop ∧
        c.population_rate = pop ∧
        c.shooting_rate =
          (((t.rows.map Row.race).filterMap id).count c.race : ℚ) /
            (sumCounts (value_countsOpt (t.rows.map Row.race)) : ℚ) * 100 ∧
        c.ratio = c.shooting_rate / c.population_rate) := by
  constructor
  · intro race
    rw [List.mem_map]
    constructor
    · rintro ⟨c, hc, hrace⟩
      obtain ⟨rc, hrc, hg⟩ := List.mem_filterMap.mp hc
      obtain ⟨pop, hlk, heq⟩ := Option.map_eq_some'.mp hg
      obtain ⟨hmemr, -⟩ := mem_value_counts.mp hrc
      have hr1 : rc.1 = race := by rw [← hrace, ← heq]
      rw [← hr1]
      constructor
      · obtain ⟨a, ha, ha2⟩ := List.mem_filterMap.mp hmemr
        have ha3 : a = some rc.1 := ha2
        exact ha3 ▸ ha
      · exact lookup_isSome_iff_mem_keys.mp (by rw [hlk]; rfl)
    · rintro ⟨hsome, hkey⟩
      have hmemr : race ∈ (t.rows.map Row.race).filterMap id :=
        List.mem_filterMap.mpr ⟨some race, hsome, rfl⟩
      obtain ⟨pop, hlk⟩ :=
        Option.isSome_iff_exists.mp (lookup_isSome_iff_mem_keys.mpr hkey)
      refine ⟨_, List.mem_filterMap.mpr
        ⟨(race, ((t.rows.map Row.race).filterMap id).count race),
          mem_value_counts.mpr ⟨hmemr, rfl⟩, by rw [hlk]; rfl⟩, rfl⟩
  · intro c hc
    obtain ⟨rc, hrc, hg⟩ := List.mem_filterMap.mp hc
    obtain ⟨pop, hlk, heq⟩ := Option.map_eq_some'.mp hg
    obtain ⟨hmemr, hcnt⟩ := mem_value_counts.mp hrc
    subst heq
    refine ⟨pop, hlk, rfl, ?_, rfl⟩
    rw [hcnt]

/-- C9: `analyze_temporal_trends` produces its figure exactly when the
dataset has an incident in all twelve months (otherwise the monthly bar
chart raises a shape mismatch) and in all seven weekday names
(otherwise reindexing the day-of-week counts raises a `KeyError`); when
it succeeds, the day-of-week panel shows the counts in
Monday-through-Sunday order. -/
theorem temporal_requires_full_calendar (t : Table)
    (hm : ∀ r ∈ t.rows, 1 ≤ r.date.m ∧ r.date.m ≤ 12) :
    ((∃ c, (analyze_temporal_trends (some t)).2 = Except.ok c) ↔
      ((∀ mo : Nat, 1 ≤ mo → mo ≤ 12 → mo ∈ monthsOf t) ∧
        ∀ dy ∈ day_order, dy ∈ daysOf t)) ∧
    (∀ c, (analyze_temporal_trends (some t)).2 = Except.ok c →
      c.dayCounts = day_order.map fun dy => (daysOf t).count dy) := by
  have hmb : ∀ x ∈ monthsOf t, 1 ≤ x ∧ x ≤ 12 := by
    intro x hx
    obtain ⟨r, hr, rfl⟩ := List.mem_map.mp hx
    exact hm r hr
  have hlen : (groupbySize (monthsOf t)).length = (monthsOf t).dedup.length := by
    unfold groupbySize
    rw [List.length_map, List.length_insertionSort]
  have hmonth : (groupbySize (monthsOf t)).length = 12 ↔
      ∀ mo : Nat, 1 ≤ mo → mo ≤ 12 → mo ∈ monthsOf t := by
    rw [hlen]
    exact dedup_length_eq_twelve hmb
  have hday : (∃ cs, selectSeries (value_counts (daysOf t)) day_order = some cs) ↔
      ∀ dy ∈ day_order, dy ∈ daysOf t := by
    rw [selectSeries_eq_some_iff]
    constructor
    · intro hall dy hdy
      exact lookup_value_counts_isSome.mp (hall dy hdy)
    · intro hall dy hdy
      exact lookup_value_counts_isSome.mpr (hall dy hdy)
  rw [temporal_eq]
  by_cases h12 : (groupbySize (monthsOf t)).length = 12
  · rw [if_pos h12]
    cases hsel : selectSeries (value_counts (daysOf t)) day_order with
    | some dc =>
        dsimp only
        constructor
        · constructor
          · intro _
            exact ⟨hmonth.mp h12, hday.mp ⟨dc, hsel⟩⟩
          · intro _
            exact ⟨_, rfl⟩
        · intro c hcg
          have hlkup : ∀ dy ∈ day_order,
              List.lookup dy (value_counts (daysOf t)) = some ((daysOf t).count dy) := by
            intro dy hdy
            exact lookup_value_counts (hday.mp ⟨dc, hsel⟩ dy hdy)
          have hmap := selectSeries_eq_map hlkup
          rw [hsel] at hmap
          have hdc : dc = day_order.map fun dy => (daysOf t).count dy :=
            Option.some_inj.mp hmap
          cases hcg
          exact hdc
    | none =>
        dsimp only
        refine ⟨⟨?_, ?_⟩, ?_⟩
        · rintro ⟨c, hc⟩
          cases hc
        · rintro ⟨-, hdy⟩
          obtain ⟨cs, hcs⟩ := hday.mpr hdy
          rw [hcs] at hsel
          cases hsel
        · intro c hc
          cases hc
  · rw [if_neg h12]
    dsimp only
    refine ⟨⟨?_, ?_⟩, ?_⟩
    · rintro ⟨c, hc⟩
      cases hc
    · rintro ⟨hmo, -⟩
      exact absurd (hmonth.mpr hmo) h12
    · intro c hc
      cases hc

/-- C1: for every non-empty dataset, the trend percentage printed by
`generate_summary_report` equals the difference between the counts of
the last (maximum) and first (minimum) year present, divided by the
first-year count, times 100. -/
theorem summary_trend_change (t : Table) (h : t.rows ≠ []) :
    ∃ yMin yMax : Int,
      yMin ∈ yearsOf t ∧ yMax ∈ yearsOf t ∧
      (∀ y ∈ yearsOf t, yMin ≤ y ∧ y ≤ yMax) ∧
      (generate_summary_report (some t)).2 =
        [Msg.summaryReport t.rows.length (trend_change t)] ∧
      trend_change t =
        (((yearsOf t).count yMax : ℚ) - ((yearsOf t).count yMin : ℚ)) /
          ((yearsOf t).count yMin : ℚ) * 100 := by
  have hys : yearsOf t ≠ [] := by
    unfold yearsOf
    intro hmap
    exact h (List.map_eq_nil_iff.mp hmap)
  have hmem : ∀ x : Int,
      x ∈ List.insertionSort (fun a b : Int => a ≤ b) (yearsOf t).dedup ↔
        x ∈ yearsOf t := by
    intro x
    rw [List.mem_insertionSort, List.mem_dedup]
  have hne : List.insertionSort (fun a b : Int => a ≤ b) (yearsOf t).dedup ≠ [] :=
    List.ne_nil_of_mem ((hmem _).mpr (List.head_mem hys))
  have hsorted : (List.insertionSort (fun a b : Int => a ≤ b) (yearsOf t).dedup).Sorted
      (· ≤ ·) := List.sorted_insertionSort _ _
  refine ⟨(List.insertionSort (fun a b : Int => a ≤ b) (yearsOf t).dedup).head hne,
    (List.insertionSort (fun a b : Int => a ≤ b) (yearsOf t).dedup).getLast hne,
    (hmem _).mp (List.head_mem hne), (hmem _).mp (List.getLast_mem hne), ?_, rfl, ?_⟩
  · intro y hy
    exact ⟨head_le_of_sorted hne hsorted y ((hmem y).mpr hy),
      le_getLast_of_sorted hne hsorted y ((hmem y).mpr hy)⟩
  · unfold trend_change
    have hg : groupbySize (yearsOf t) =
        (List.insertionSort (fun a b : Int => a ≤ b) (yearsOf t).dedup).map
          fun k => (k, (yearsOf t).count k) := rfl
    rw [hg]
    dsimp only
    rw [List.head?_map, List.getLast?_map, List.head?_eq_head hne,
      List.getLast?_eq_getLast _ hne, Option.map_some', Option.map_some']

/-! ### Witnesses: the theorems above applied at concrete inputs -/

/-- Witness for C1 on `sampleYears`. -/
theorem summary_trend_change_witness :
    sampleYears.rows ≠ [] ∧
    ∃ yMin yMax : Int,
      yMin ∈ yearsOf sampleYears ∧ yMax ∈ yearsOf sampleYears ∧
      (∀ y ∈ yearsOf sampleYears, yMin ≤ y ∧ y ≤ yMax) ∧
      (generate_summary_report (some sampleYears)).2 =
        [Msg.summaryReport sampleYears.rows.length (trend_change sampleYears)] ∧
      trend_change sampleYears =
        (((yearsOf sampleYears).count yMax : ℚ) -
            ((yearsOf sampleYears).count yMin : ℚ)) /
          ((yearsOf sampleYears).count yMin : ℚ) * 100 :=
  ⟨by decide, summary_trend_change sampleYears (by decide)⟩

/-- Witness for amended C2 on `sampleMissingRace`. -/
theorem race_percentages_sum_eq_witness :
    sampleMissingRace.rows ≠ [] ∧
    (sum_race_percentages sampleMissingRace =
      ((sampleMissingRace.rows.filterMap Row.race).length : ℚ) /
        (sampleMissingRace.rows.length : ℚ) * 100 ∧
      ((∀ r ∈ sampleMissingRace.rows, (Row.race r).isSome) →
        sum_race_percentages sampleMissingRace = 100)) :=
  ⟨by decide, race_percentages_sum_eq sampleMissingRace (by decide)⟩

/-- Witness for C4 on the Texas state code and `sampleOneState`. -/
theorem region_mapping_exclusive_witness :
    "TX" ∈ all_region_states ∧
    (region_mapping.countP fun p => decide ("TX" ∈ p.2)) = 1 ∧
    ((regionOf (mkRow 2015 1 "Monday" none none (some "TX"))).isSome ↔
      ∃ s, (mkRow 2015 1 "Monday" none none (some "TX")).state = some s ∧
        s ∈ all_region_states) ∧
    sumCounts (value_countsOpt (sampleOneState.rows.map regionOf)) =
      (sampleOneState.rows.filter fun r => (regionOf r).isSome).length :=
  ⟨by decide, region_mapping_exclusive.2.1 "TX" (by decide),
    region_mapping_exclusive.2.2.1 _, region_mapping_exclusive.2.2.2 sampleOneState⟩

/-- Witness for C5 on `sampleOneRace` and its comparison row. -/
theorem comparison_table_spec_witness :
    sampleCompRow ∈ comparison_table sampleOneRace ∧
    ∃ pop, List.lookup sampleCompRow.race us_population_race = some pop ∧
      sampleCompRow.population_rate = pop ∧
      sampleCompRow.shooting_rate =
        (((sampleOneRace.rows.map Row.race).filterMap id).count sampleCompRow.race : ℚ) /
          (sumCounts (value_countsOpt (sampleOneRace.rows.map Row.race)) : ℚ) * 100 ∧
      sampleCompRow.ratio = sampleCompRow.shooting_rate / sampleCompRow.population_rate := by
  have hvc : value_countsOpt (sampleOneRace.rows.map Row.race) = [("W", 1)] := by
    decide
  have hmem : sampleCompRow ∈ comparison_table sampleOneRace := by
    unfold comparison_table
    dsimp only
    rw [hvc]
    exact List.mem_filterMap.mpr ⟨("W", 1), List.mem_singleton_self _, rfl⟩
  exact ⟨hmem, (comparison_table_spec sampleOneRace).2 sampleCompRow hmem⟩

/-- Witness for amended C6 on `sampleOneGun`. -/
theorem armed_chart_top8_witness :
    "other" ∉
      ((value_counts (sampleOneGun.rows.map fun r => simplifyArmed r.armed)).take 8).map
        Prod.fst ∧
    armed_chart sampleOneGun = armed_chart_claimed sampleOneGun :=
  ⟨by decide, armed_chart_top8_plus_other sampleOneGun (by decide)⟩

/-- Witness for C7 on a failing read. -/
theorem load_failure_halts_witness :
    (load_data (LoadOutcome.readFail "file not found")).1 = false ∧
    ((∃ e, Msg.errorLoading e ∈ (load_data (LoadOutcome.readFail "file not found")).2) ∧
      main_steps (LoadOutcome.readFail "file not found") = [Step.load]) :=
  ⟨rfl, (load_failure_halts (LoadOutcome.readFail "file not found")).2 rfl⟩

/-- Witness for C9 on `sampleFullCalendar`. -/
theorem temporal_requires_full_calendar_witness :
    (∀ r ∈ sampleFullCalendar.rows, 1 ≤ r.date.m ∧ r.date.m ≤ 12) ∧
    (((∃ c, (analyze_temporal_trends (some sampleFullCalendar)).2 = Except.ok c) ↔
      ((∀ mo : Nat, 1 ≤ mo → mo ≤ 12 → mo ∈ monthsOf sampleFullCalendar) ∧
        ∀ dy ∈ day_order, dy ∈ daysOf sampleFullCalendar)) ∧
    (∀ c, (analyze_temporal_trends (some sampleFullCalendar)).2 = Except.ok c →
      c.dayCounts =
        day_order.map fun dy => (daysOf sampleFullCalendar).count dy)) :=
  ⟨by decide, temporal_requires_full_calendar sampleFullCalendar (by decide)⟩

end PoliceShootings
